import Mathlib

/-!
# Verification of espanso's macOS `SystemManager` (src/system/macos.rs)

Shallow embedding of the macOS system-introspection module of espanso:
the `SystemManager` window queries, the secure-input resolver
(`get_secure_input_pid`, `get_secure_input_application`) and the
application-name extraction heuristic (`get_app_name_from_path`).

The native bridge (`get_active_app_identifier`, `get_active_app_bundle`,
`get_secure_input_process`, `get_path_from_pid`) is external C code: it is
modelled as an opaque environment (`Bridge`) recording, for each call, the
returned status and the result of C-string extraction plus UTF-8 decoding
of the caller-supplied buffer (`none` models decoding failure or an
unreadable buffer).  Buffer capacities are passed explicitly so that the
embedded functions consult the bridge at exactly the capacities the Rust
code uses (250 for identifier/bundle, 4096 for PID-to-path).

`get_app_name_from_path` uses the Rust regex `"/([^/]+).(app|bundle)/"`
(note the unescaped dot: it matches any character except a newline) with
leftmost-first match semantics and a greedy `+`.  The embedding
`findCap` reproduces those semantics directly: scan start positions left
to right; at a `/`, try the longest capture first.
-/

namespace Espanso

/-- Rust's `str::trim` on a list of characters: strip whitespace from both
ends.  (`Char.isWhitespace` models Rust's `char::is_whitespace`.) -/
def trimChars (l : List Char) : List Char :=
  List.rdropWhile Char.isWhitespace (List.dropWhile Char.isWhitespace l)

/-- Rust's `str::trim` lifted to `String`. -/
def rustTrim (s : String) : String :=
  String.mk (trimChars s.data)

/-- `startsWith p l` holds when `p` is a (contiguous, initial) prefix of `l`;
models the literal-suffix check of the regex engine. -/
def startsWith : List Char → List Char → Bool
  | [], _ => true
  | _ :: _, [] => false
  | a :: p, b :: l => a = b && startsWith p l

/-- The characters of the literal `app/` of the regex alternation. -/
def appSuffix : List Char := ['a', 'p', 'p', '/']

/-- The characters of the literal `bundle/` of the regex alternation. -/
def bundleSuffix : List Char := ['b', 'u', 'n', 'd', 'l', 'e', '/']

/-- The literal alternation `(app|bundle)/` of the regex: the remainder of
the subject must begin with `app/` or with `bundle/`. -/
def suffixOk (l : List Char) : Bool :=
  startsWith appSuffix l || startsWith bundleSuffix l

/-- One candidate of the regex body at a fixed start: after the opening `/`,
the capture `([^/]+)` takes `k` characters (nonempty, none of them `/`),
the unescaped `.` takes one arbitrary non-newline character, and the
subject must then continue with `app/` or `bundle/`. -/
def capOk (rest : List Char) (k : Nat) : Bool :=
  decide (0 < k) &&
  (rest.take k).all (fun c => c ≠ '/') &&
  (match rest[k]? with
   | some c => c ≠ '\n'
   | none => false) &&
  suffixOk (rest.drop (k + 1))

/-- Greedy `([^/]+)`: try capture lengths from `n` down to `1`, returning
the first (longest) one that lets the rest of the pattern match. -/
def tryCapAux (rest : List Char) : Nat → Option (List Char)
  | 0 => none
  | k + 1 => if capOk rest (k + 1) then some (rest.take (k + 1)) else tryCapAux rest k

/-- The capture produced by the regex body when anchored right after a `/`:
the longest admissible capture, or `none` when the body cannot match here. -/
def tryCap (rest : List Char) : Option (List Char) :=
  tryCapAux rest rest.length

/-- Leftmost-first search of `/([^/]+).(app|bundle)/` over the subject:
scan positions left to right; a match can only start at a literal `/`;
the first position admitting a match wins, with the greedy capture there. -/
def findCap : List Char → Option (List Char)
  | [] => none
  | c :: rest =>
    if c = '/' then
      match tryCap rest with
      | some p => some p
      | none => findCap rest
    else findCap rest

/-- `MacSystemManager::get_app_name_from_path` (macos.rs:126-139): capture
group 1 of the first match of `APP_REGEX = "/([^/]+).(app|bundle)/"`,
or `None` when the regex does not match. -/
def get_app_name_from_path (path : String) : Option String :=
  (findCap path.data).map String.mk

/-- Outcome of one buffer-filling bridge call: the returned `i32` status,
and the text obtained from the buffer by `CStr::from_ptr` followed by
`to_str` (`none` models UTF-8 decoding failure). -/
structure BridgeResult where
  status : Int
  content : Option String
  deriving DecidableEq

/-- The opaque native bridge: one response per call the Rust module makes.
Buffer-filling calls take the buffer capacity the caller passes, so a
query's result can only depend on the bridge's response at the capacity
the code actually uses.  `secure_input_process` is the pair (returned
status, value found in the caller's `i64` PID slot after the call); the
slot is initialised to `-1` by the caller, so a bridge that never writes
is the special case where the second component is `-1`. -/
structure Bridge where
  active_app_identifier : Int → BridgeResult
  active_app_bundle : Int → BridgeResult
  secure_input_process : Int × Int
  path_from_pid : Int → Int → BridgeResult

/-- `MacSystemManager::get_current_window_class` (macos.rs:34-50): call
`get_active_app_identifier` with a 250-byte buffer; on a positive status
and successful decoding return the string, otherwise `None`. -/
def get_current_window_class (b : Bridge) : Option String :=
  let r := b.active_app_identifier 250
  if r.status > 0 then
    match r.content with
    | some s => some s
    | none => none
  else none

/-- `MacSystemManager::get_current_window_executable` (macos.rs:52-68):
same shape over `get_active_app_bundle` with a 250-byte buffer. -/
def get_current_window_executable (b : Bridge) : Option String :=
  let r := b.active_app_bundle 250
  if r.status > 0 then
    match r.content with
    | some s => some s
    | none => none
  else none

/-- `MacSystemManager::get_current_window_title` (macos.rs:30-32): defined
as the window-class query on this platform. -/
def get_current_window_title (b : Bridge) : Option String :=
  get_current_window_class b

/-- `MacSystemManager::get_secure_input_pid` (macos.rs:78-89): initialise
the PID slot to `-1`, call `get_secure_input_process`; on a positive
status return whatever the slot now holds, otherwise `None`. -/
def get_secure_input_pid (b : Bridge) : Option Int :=
  let res := b.secure_input_process.1
  let pid := b.secure_input_process.2
  if res > 0 then some pid else none

/-- `MacSystemManager::get_secure_input_application` (macos.rs:93-124):
resolve the secure-input PID, call `get_path_from_pid` with a 4096-byte
buffer, and on a positive status, successful decoding and a path that
does not trim to empty, pair the extracted app name (or the trimmed path
itself as fallback) with the trimmed path. -/
def get_secure_input_application (b : Bridge) : Option (String × String) :=
  match get_secure_input_pid b with
  | some pid =>
    let r := b.path_from_pid pid 4096
    if r.status > 0 then
      match r.content with
      | some path =>
        if rustTrim path ≠ "" then
          let process := rustTrim path
          let app_name :=
            match get_app_name_from_path process with
            | some name => name
            | none => process
          some (app_name, process)
        else none
      | none => none
    else none
  | none => none

/-! ## Spec-side predicates, stated from the claims' wording -/

/-- Spec-side (claims C1/C2/C5): `path` contains a directory segment `X`
immediately preceded by a path separator and immediately followed by
`.app/` or `.bundle/`. -/
def containsBundleSegment (path X : String) : Prop :=
  X.data ≠ [] ∧ (∀ c ∈ X.data, c ≠ '/') ∧
  ∃ sfx pre post, (sfx = appSuffix ∨ sfx = bundleSuffix) ∧
    path.data = pre ++ '/' :: (X.data ++ '.' :: (sfx ++ post))

/-- Spec-side (amended C1/C2): an occurrence of the pattern
`/([^/]+).(app|bundle)/` with the unescaped dot read as it is compiled:
"any character except a newline".  Concretely: a separator, a nonempty
separator-free segment, one arbitrary non-newline character, then `app/`
or `bundle/`. -/
def patternOccurs (path : String) : Prop :=
  ∃ (X : List Char) (c : Char) (sfx pre post : List Char),
    X ≠ [] ∧ (∀ a ∈ X, a ≠ '/') ∧ c ≠ '\n' ∧
    (sfx = appSuffix ∨ sfx = bundleSuffix) ∧
    path.data = pre ++ '/' :: (X ++ c :: (sfx ++ post))

/-! ## Concrete bridge environments used as test vectors -/

/-- A bridge whose every call fails with status `0`, leaving the garbage
value `37` in the caller's PID slot. -/
def zeroBridge : Bridge where
  active_app_identifier := fun _ => ⟨0, none⟩
  active_app_bundle := fun _ => ⟨0, none⟩
  secure_input_process := (0, 37)
  path_from_pid := fun _ _ => ⟨0, none⟩

/-- A bridge reporting a secure-input holder with PID `42` whose
PID-to-path resolution fails with status `0`. -/
def pathFailBridge : Bridge where
  active_app_identifier := fun _ => ⟨0, none⟩
  active_app_bundle := fun _ => ⟨0, none⟩
  secure_input_process := (1, 42)
  path_from_pid := fun _ _ => ⟨0, none⟩

/-- A bridge reporting a secure-input holder with PID `5` that resolves to
a path outside any bundle, exercising the fallback display name. -/
def fallbackBridge : Bridge where
  active_app_identifier := fun _ => ⟨0, none⟩
  active_app_bundle := fun _ => ⟨0, none⟩
  secure_input_process := (1, 5)
  path_from_pid := fun _ _ => ⟨1, some "/another/directory"⟩

/-- A misbehaving bridge that reports a secure-input holder (positive
status) while leaving the caller's sentinel `-1` in the PID slot; its
path query only answers when asked about PID `-1`, so a non-`none` final
result exhibits that the sentinel was passed on. -/
def sentinelBridge : Bridge where
  active_app_identifier := fun _ => ⟨0, none⟩
  active_app_bundle := fun _ => ⟨0, none⟩
  secure_input_process := (1, -1)
  path_from_pid := fun pid _ => if pid = -1 then ⟨1, some "/evil"⟩ else ⟨0, none⟩

/-! ## Lemmas about the regex-matching embedding -/

theorem startsWith_iff (p l : List Char) : startsWith p l = true ↔ ∃ t, l = p ++ t := by
  induction p generalizing l with
  | nil =>
    simp only [startsWith, List.nil_append, true_iff]
    exact ⟨l, rfl⟩
  | cons a p ih =>
    cases l with
    | nil =>
      constructor
      · intro h
        exact Bool.noConfusion h
      · rintro ⟨t, ht⟩
        exact List.noConfusion ht
    | cons b l =>
      simp only [startsWith, Bool.and_eq_true, decide_eq_true_eq, ih, List.cons_append,
        List.cons.injEq]
      constructor
      · rintro ⟨rfl, t, rfl⟩
        exact ⟨t, rfl, rfl⟩
      · rintro ⟨t, rfl, rfl⟩
        exact ⟨rfl, t, rfl⟩

theorem startsWith_self_append (p t : List Char) : startsWith p (p ++ t) = true :=
  (startsWith_iff p (p ++ t)).mpr ⟨t, rfl⟩

theorem suffixOk_parts {l : List Char} (h : suffixOk l = true) :
    ∃ sfx t, (sfx = appSuffix ∨ sfx = bundleSuffix) ∧ l = sfx ++ t := by
  have h' : startsWith appSuffix l = true ∨ startsWith bundleSuffix l = true := by
    simpa [suffixOk] using h
  rcases h' with h1 | h1
  · obtain ⟨t, rfl⟩ := (startsWith_iff _ _).mp h1
    exact ⟨appSuffix, t, Or.inl rfl, rfl⟩
  · obtain ⟨t, rfl⟩ := (startsWith_iff _ _).mp h1
    exact ⟨bundleSuffix, t, Or.inr rfl, rfl⟩

theorem suffixOk_of_parts {sfx : List Char} (t : List Char)
    (h : sfx = appSuffix ∨ sfx = bundleSuffix) : suffixOk (sfx ++ t) = true := by
  rcases h with rfl | rfl
  · simp [suffixOk, startsWith_self_append]
  · simp [suffixOk, startsWith_self_append]

theorem capOk_parts {rest : List Char} {k : Nat} (h : capOk rest k = true) :
    ∃ X c tail, rest = X ++ c :: tail ∧ X = rest.take k ∧ X ≠ [] ∧
      (∀ a ∈ X, a ≠ '/') ∧ c ≠ '\n' ∧ suffixOk tail = true := by
  unfold capOk at h
  simp only [Bool.and_eq_true, decide_eq_true_eq, List.all_eq_true] at h
  obtain ⟨⟨⟨h0, hall⟩, hM⟩, hsfx⟩ := h
  cases hk : rest[k]? with
  | none =>
    rw [hk] at hM
    exact absurd hM (by simp)
  | some c =>
    rw [hk] at hM
    simp only [decide_eq_true_eq] at hM
    obtain ⟨hlt, hgetk⟩ := List.getElem?_eq_some_iff.mp hk
    have hdrop : rest.drop k = c :: rest.drop (k + 1) := by
      rw [List.drop_eq_getElem_cons hlt, hgetk]
    refine ⟨rest.take k, c, rest.drop (k + 1), ?_, rfl, ?_, ?_, hM, hsfx⟩
    · conv_lhs => rw [← List.take_append_drop k rest]
      rw [hdrop]
    · have hlen : (rest.take k).length = min k rest.length := List.length_take k rest
      intro hnil
      rw [hnil] at hlen
      simp only [List.length_nil] at hlen
      omega
    · intro a ha
      exact hall a ha

theorem capOk_of_parts {X : List Char} {c : Char} {tail : List Char}
    (hX : X ≠ []) (hsl : ∀ a ∈ X, a ≠ '/') (hc : c ≠ '\n') (hsfx : suffixOk tail = true) :
    capOk (X ++ c :: tail) X.length = true := by
  have htake : (X ++ c :: tail).take X.length = X := List.take_left X (c :: tail)
  have hget : (X ++ c :: tail)[X.length]? = some c := by
    rw [List.getElem?_append_right (Nat.le_refl _)]
    simp
  have hdrop : (X ++ c :: tail).drop (X.length + 1) = tail :=
    @List.drop_append Char X (c :: tail) 1
  unfold capOk
  rw [htake, hget, hdrop]
  simp only [Bool.and_eq_true, decide_eq_true_eq, List.all_eq_true]
  exact ⟨⟨⟨List.length_pos.mpr hX, fun a ha => hsl a ha⟩, hc⟩, hsfx⟩

theorem capOk_pos {rest : List Char} {k : Nat} (h : capOk rest k = true) : 0 < k := by
  obtain ⟨X, c, tail, _, hXtake, hXne, _⟩ := capOk_parts h
  rcases Nat.eq_zero_or_pos k with rfl | hp
  · simp only [List.take_zero] at hXtake
    exact absurd hXtake hXne
  · exact hp

theorem tryCapAux_isSome {rest : List Char} {k : Nat} (hk : capOk rest k = true) :
    ∀ {n : Nat}, k ≤ n → (tryCapAux rest n).isSome = true := by
  intro n
  induction n with
  | zero =>
    intro hkn
    have := capOk_pos hk
    omega
  | succ n ih =>
    intro hkn
    unfold tryCapAux
    by_cases hc : capOk rest (n + 1) = true
    · rw [if_pos hc]
      rfl
    · rw [if_neg hc]
      apply ih
      have hne : k ≠ n + 1 := fun he => hc (he ▸ hk)
      omega

theorem tryCapAux_sound {rest : List Char} {n : Nat} {p : List Char}
    (h : tryCapAux rest n = some p) : ∃ k, capOk rest k = true ∧ p = rest.take k := by
  induction n with
  | zero => simp [tryCapAux] at h
  | succ n ih =>
    unfold tryCapAux at h
    by_cases hc : capOk rest (n + 1) = true
    · rw [if_pos hc] at h
      injection h with h
      exact ⟨n + 1, hc, h.symm⟩
    · rw [if_neg hc] at h
      exact ih h

theorem findCap_isSome (pre : List Char) {rest : List Char}
    (h : (tryCap rest).isSome = true) : (findCap (pre ++ '/' :: rest)).isSome = true := by
  induction pre with
  | nil =>
    rw [List.nil_append]
    unfold findCap
    rw [if_pos rfl]
    cases htc : tryCap rest with
    | none =>
      rw [htc] at h
      simp at h
    | some p => simp
  | cons a pre ih =>
    rw [List.cons_append]
    unfold findCap
    by_cases ha : a = '/'
    · rw [if_pos ha]
      cases htc : tryCap (pre ++ '/' :: rest) with
      | some p => simp
      | none => simpa using ih
    · rw [if_neg ha]
      exact ih

theorem findCap_sound : ∀ {l p : List Char}, findCap l = some p →
    ∃ pre rest, l = pre ++ '/' :: rest ∧ tryCap rest = some p := by
  intro l
  induction l with
  | nil =>
    intro p h
    simp [findCap] at h
  | cons a l ih =>
    intro p h
    unfold findCap at h
    by_cases ha : a = '/'
    · rw [if_pos ha] at h
      cases htc : tryCap l with
      | some q =>
        rw [htc] at h
        injection h with h
        exact ⟨[], l, by rw [ha, List.nil_append], by rw [htc, h]⟩
      | none =>
        rw [htc] at h
        obtain ⟨pre, rest, hsplit, htc2⟩ := ih h
        exact ⟨a :: pre, rest, by rw [hsplit, List.cons_append], htc2⟩
    · rw [if_neg ha] at h
      obtain ⟨pre, rest, hsplit, htc2⟩ := ih h
      exact ⟨a :: pre, rest, by rw [hsplit, List.cons_append], htc2⟩

/-- If the whole match of the regex body succeeds somewhere in the subject,
the scan finds a (leftmost) match. -/
theorem findCap_of_occurrence {path : String} (h : patternOccurs path) :
    ∃ name, get_app_name_from_path path = some name := by
  obtain ⟨X, c, sfx, pre, post, hXne, hXsl, hc, hsfx, hdata⟩ := h
  have hcap : capOk (X ++ c :: (sfx ++ post)) X.length = true :=
    capOk_of_parts hXne hXsl hc (suffixOk_of_parts post hsfx)
  have hlen : X.length ≤ (X ++ c :: (sfx ++ post)).length := by
    rw [List.length_append]
    omega
  have htc : (tryCap (X ++ c :: (sfx ++ post))).isSome = true :=
    tryCapAux_isSome hcap hlen
  have hfind := findCap_isSome pre htc
  rw [← hdata] at hfind
  unfold get_app_name_from_path
  cases hf : findCap path.data with
  | none =>
    rw [hf] at hfind
    exact absurd hfind (by simp)
  | some p => exact ⟨String.mk p, rfl⟩

/-- Any successful extraction decomposes the path as an occurrence of the
pattern, and the returned name is exactly the captured segment. -/
theorem get_app_name_some_parts {path name : String}
    (h : get_app_name_from_path path = some name) :
    ∃ (X : List Char) (c : Char) (sfx pre post : List Char),
      X ≠ [] ∧ (∀ a ∈ X, a ≠ '/') ∧ c ≠ '\n' ∧
      (sfx = appSuffix ∨ sfx = bundleSuffix) ∧
      path.data = pre ++ '/' :: (X ++ c :: (sfx ++ post)) ∧
      name = String.mk X := by
  unfold get_app_name_from_path at h
  cases hf : findCap path.data with
  | none =>
    rw [hf] at h
    exact absurd h (by simp)
  | some p =>
    rw [hf] at h
    replace h : some (String.mk p) = some name := h
    injection h with h
    obtain ⟨pre, rest, hsplit, htc⟩ := findCap_sound hf
    unfold tryCap at htc
    obtain ⟨k, hcap, hp⟩ := tryCapAux_sound htc
    obtain ⟨X, c, tail, hrest, hXtake, hXne, hXsl, hc, hsfxOk⟩ := capOk_parts hcap
    obtain ⟨sfx, t, hsfx, htail⟩ := suffixOk_parts hsfxOk
    refine ⟨X, c, sfx, pre, t, hXne, hXsl, hc, hsfx, ?_, ?_⟩
    · rw [hsplit, hrest, htail]
    · rw [← h, hp, ← hXtake]

/-- Any successful extraction witnesses an occurrence of the pattern. -/
theorem patternOccurs_of_some {path name : String}
    (h : get_app_name_from_path path = some name) : patternOccurs path := by
  obtain ⟨X, c, sfx, pre, post, hXne, hXsl, hc, hsfx, hdata, _⟩ := get_app_name_some_parts h
  exact ⟨X, c, sfx, pre, post, hXne, hXsl, hc, hsfx, hdata⟩

/-- A literal `.app/` or `.bundle/` segment is in particular an occurrence
of the pattern (the unescaped dot matching the literal dot). -/
theorem patternOccurs_of_containsBundleSegment {path X : String}
    (h : containsBundleSegment path X) : patternOccurs path := by
  obtain ⟨hne, hsl, sfx, pre, post, hsfx, hdata⟩ := h
  exact ⟨X.data, '.', sfx, pre, post, hne, hsl, by decide, hsfx, hdata⟩

/-! ## Lemmas about trimming -/

theorem dropWhile_rdropWhile_self {p : Char → Bool} :
    ∀ {y : List Char}, List.dropWhile p y = y →
      List.dropWhile p (List.rdropWhile p y) = List.rdropWhile p y := by
  intro y
  induction y using List.reverseRecOn with
  | nil => intro _; rfl
  | append_singleton l x ih =>
    intro hy
    rw [List.rdropWhile_concat]
    by_cases hx : p x = true
    · rw [if_pos hx]
      apply ih
      cases l with
      | nil => rfl
      | cons a l' =>
        rw [List.cons_append, List.dropWhile_cons] at hy
        by_cases ha : p a = true
        · rw [if_pos ha] at hy
          have hlen := congrArg List.length hy
          have hsub : List.Sublist (List.dropWhile p (l' ++ [x])) (l' ++ [x]) :=
            List.dropWhile_sublist p
          have hle := hsub.length_le
          simp only [List.length_cons, List.length_append, List.length_singleton] at hlen hle
          omega
        · rw [if_neg ha] at hy
          rw [List.dropWhile_cons, if_neg ha]
    · rw [if_neg hx]
      exact hy

theorem trimChars_idem (l : List Char) : trimChars (trimChars l) = trimChars l := by
  unfold trimChars
  rw [dropWhile_rdropWhile_self (List.dropWhile_idempotent _ _), List.rdropWhile_idempotent]

theorem rustTrim_idem (s : String) : rustTrim (rustTrim s) = rustTrim s := by
  unfold rustTrim
  rw [show (String.mk (trimChars s.data)).data = trimChars s.data from rfl, trimChars_idem]

/-! ## An inversion principle for the secure-input resolver -/

/-- Inversion of `get_secure_input_application`: a returned pair arises
from a present PID, a positive path-query status, a decodable buffer and
a non-empty trimmed path, and the name is the extraction or the fallback. -/
theorem secure_input_application_parts {b : Bridge} {name p : String}
    (h : get_secure_input_application b = some (name, p)) :
    ∃ (pid : Int) (s : String), get_secure_input_pid b = some pid ∧
      (b.path_from_pid pid 4096).status > 0 ∧
      (b.path_from_pid pid 4096).content = some s ∧
      rustTrim s ≠ "" ∧ p = rustTrim s ∧
      name = (match get_app_name_from_path (rustTrim s) with
              | some n => n
              | none => rustTrim s) := by
  unfold get_secure_input_application at h
  cases hpid : get_secure_input_pid b with
  | none =>
    rw [hpid] at h
    exact absurd h (by simp)
  | some pid =>
    rw [hpid] at h
    simp only at h
    by_cases hst : (b.path_from_pid pid 4096).status > 0
    · rw [if_pos hst] at h
      cases hcon : (b.path_from_pid pid 4096).content with
      | none =>
        rw [hcon] at h
        exact absurd h (by simp)
      | some s =>
        rw [hcon] at h
        dsimp only at h
        by_cases htr : rustTrim s ≠ ""
        · rw [if_pos htr] at h
          injection h with h
          have h1 := congrArg Prod.fst h
          have h2 := congrArg Prod.snd h
          dsimp only at h1 h2
          exact ⟨pid, s, rfl, hst, hcon, htr, h2.symm, h1.symm⟩
        · rw [if_neg htr] at h
          exact absurd h (by simp)
    · rw [if_neg hst] at h
      exact absurd h (by simp)

/-- `get_secure_input_pid` unfolded: the slot value guarded by the status. -/
theorem get_secure_input_pid_eq (b : Bridge) :
    get_secure_input_pid b =
      if b.secure_input_process.1 > 0 then some b.secure_input_process.2 else none := rfl

/-! ## The claims -/

/-- Claim C1 (amended): for every input path containing a directory
segment `X` immediately preceded by a path separator and immediately
followed by `.app/` or `.bundle/`, `get_app_name_from_path` returns
`Some name` for some name — the capture of the leftmost-first match of
the regex.  Because the regex dot is unescaped (it matches any
character) and an earlier match wins, the returned name need not be `X`
(see the counterexample). -/
theorem claim1_match_exists (path X : String) (h : containsBundleSegment path X) :
    ∃ name, get_app_name_from_path path = some name :=
  findCap_of_occurrence (patternOccurs_of_containsBundleSegment h)

/-- Claim C1 counterexample: `/abapp/Foo.app/x` contains the segment `Foo`
preceded by a separator and followed by `.app/`, yet extraction returns
`Some "a"` — the unescaped dot of the regex matches the `b` of the
earlier `abapp/` — and not `Some "Foo"`. -/
theorem claim1_counterexample :
    containsBundleSegment "/abapp/Foo.app/x" "Foo" ∧
    get_app_name_from_path "/abapp/Foo.app/x" = some "a" ∧
    get_app_name_from_path "/abapp/Foo.app/x" ≠ some "Foo" :=
  ⟨⟨by decide, by decide, appSuffix, "/abapp".data, "x".data, Or.inl rfl, by decide⟩,
    by decide, by decide⟩

/-- Claim C1 witness: the iTerm path contains such a segment, and a name
is extracted. -/
theorem claim1_witness :
    ∃ name,
      get_app_name_from_path "/Applications/iTerm.app/Contents/MacOS/iTerm2" = some name :=
  claim1_match_exists "/Applications/iTerm.app/Contents/MacOS/iTerm2" "iTerm"
    ⟨by decide, by decide, appSuffix, "/Applications".data, "Contents/MacOS/iTerm2".data,
      Or.inl rfl, by decide⟩

/-- Claim C2 (amended): for every input path containing no occurrence of
the compiled pattern — a separator, a nonempty separator-free segment,
one arbitrary non-newline character, then `app/` or `bundle/` —
`get_app_name_from_path` returns `None`, and any secure-input holder
resolving to such a path gets the full trimmed path itself as its
display name.  (The claim's original condition, absence of a literal
`.app/` or `.bundle/` segment, is not enough: the unescaped regex dot
also matches non-dot characters, see the counterexample.) -/
theorem claim2_no_match_fallback (path : String) (h : ¬ patternOccurs path) :
    get_app_name_from_path path = none ∧
    ∀ (b : Bridge) (name : String),
      get_secure_input_application b = some (name, path) → name = path := by
  have h1 : get_app_name_from_path path = none := by
    cases hf : get_app_name_from_path path with
    | none => rfl
    | some n => exact absurd (patternOccurs_of_some hf) h
  refine ⟨h1, ?_⟩
  intro b name happ
  obtain ⟨pid, s, _, _, _, _, hps, hname⟩ := secure_input_application_parts happ
  rw [hname, ← hps, h1]

/-- Claim C2 counterexample: `/abapp/` contains no directory segment
followed by a literal `.app/` or `.bundle/` (it contains no dot at all),
yet `get_app_name_from_path` returns `Some "a"`: the unescaped regex dot
matches the `b`. -/
theorem claim2_counterexample :
    (¬ ∃ X, containsBundleSegment "/abapp/" X) ∧
    get_app_name_from_path "/abapp/" = some "a" := by
  constructor
  · rintro ⟨X, -, -, sfx, pre, post, hsfx, heq⟩
    have hdot : ('.' : Char) ∈ "/abapp/".data := by
      rw [heq]
      exact List.mem_append_right _ (List.mem_cons_of_mem _
        (List.mem_append_right _ (List.mem_cons_self _ _)))
    exact absurd hdot (by decide)
  · decide

/-- Claim C2 witness: `/another/directory` has no pattern occurrence, so
extraction yields no match and the resolver falls back to the path. -/
theorem claim2_witness :
    get_app_name_from_path "/another/directory" = none ∧
    ("/another/directory" : String) = "/another/directory" := by
  have hno : ¬ patternOccurs "/another/directory" := by
    intro hocc
    obtain ⟨name, hname⟩ := findCap_of_occurrence hocc
    rw [show get_app_name_from_path "/another/directory" = none from by decide] at hname
    exact Option.noConfusion hname
  exact ⟨(claim2_no_match_fallback "/another/directory" hno).1,
    (claim2_no_match_fallback "/another/directory" hno).2 fallbackBridge "/another/directory"
      (by decide)⟩

/-- Claim C3: whenever the secure-input PID bridge call reports a
non-positive status, both `get_secure_input_pid` and
`get_secure_input_application` return `None`, regardless of the value
left in the PID output slot. -/
theorem claim3_nonpositive_pid_none (b : Bridge) (h : b.secure_input_process.1 ≤ 0) :
    get_secure_input_pid b = none ∧ get_secure_input_application b = none := by
  have hpid : get_secure_input_pid b = none := by
    rw [get_secure_input_pid_eq, if_neg (by omega : ¬ b.secure_input_process.1 > 0)]
  refine ⟨hpid, ?_⟩
  unfold get_secure_input_application
  rw [hpid]

/-- Claim C3 witness: a bridge with status `0` and garbage `37` in the PID
slot yields no PID and no holder. -/
theorem claim3_witness :
    get_secure_input_pid zeroBridge = none ∧
    get_secure_input_application zeroBridge = none :=
  claim3_nonpositive_pid_none zeroBridge (by decide)

/-- Claim C4: the resolver consults the PID-to-path bridge only at buffer
capacity 4096 (part one); with a present PID it returns `None` on a
non-positive path status, an undecodable buffer, or a trimmed-empty
path, even when the raw status was positive (part two); and a pair is
constructed only from a present PID and a non-empty trimmed path
(part three). -/
theorem claim4_path_resolution :
    (∀ b b' : Bridge, b.secure_input_process = b'.secure_input_process →
      (∀ pid : Int, b.path_from_pid pid 4096 = b'.path_from_pid pid 4096) →
      get_secure_input_application b = get_secure_input_application b') ∧
    (∀ (b : Bridge) (pid : Int), get_secure_input_pid b = some pid →
      ((b.path_from_pid pid 4096).status ≤ 0 ∨ (b.path_from_pid pid 4096).content = none ∨
        ∃ s, (b.path_from_pid pid 4096).content = some s ∧ rustTrim s = "") →
      get_secure_input_application b = none) ∧
    (∀ (b : Bridge) (name p : String), get_secure_input_application b = some (name, p) →
      ∃ (pid : Int) (s : String), get_secure_input_pid b = some pid ∧
        (b.path_from_pid pid 4096).status > 0 ∧
        (b.path_from_pid pid 4096).content = some s ∧
        rustTrim s ≠ "" ∧ p = rustTrim s) := by
  refine ⟨?_, ?_, ?_⟩
  · intro b b' hsp hpath
    have hpid : get_secure_input_pid b = get_secure_input_pid b' := by
      rw [get_secure_input_pid_eq, get_secure_input_pid_eq, hsp]
    unfold get_secure_input_application
    rw [hpid]
    cases get_secure_input_pid b' with
    | none => rfl
    | some pid =>
      dsimp only
      rw [hpath pid]
  · intro b pid hpid hbad
    unfold get_secure_input_application
    rw [hpid]
    dsimp only
    rcases hbad with hst | hcon | ⟨s, hcon, htr⟩
    · rw [if_neg (by omega : ¬ (b.path_from_pid pid 4096).status > 0)]
    · by_cases hst : (b.path_from_pid pid 4096).status > 0
      · rw [if_pos hst, hcon]
      · rw [if_neg hst]
    · by_cases hst : (b.path_from_pid pid 4096).status > 0
      · rw [if_pos hst, hcon]
        dsimp only
        rw [if_neg (fun hne => hne htr)]
      · rw [if_neg hst]
  · intro b name p happ
    obtain ⟨pid, s, hpid, hst, hcon, htr, hps, _⟩ := secure_input_application_parts happ
    exact ⟨pid, s, hpid, hst, hcon, htr, hps⟩

/-- Claim C4 witness: with a present PID and a failing path query the
resolver yields `None`; with a successful query it yields a pair whose
path is the trimmed decoded string. -/
theorem claim4_witness :
    get_secure_input_application pathFailBridge = none ∧
    ∃ (pid : Int) (s : String), get_secure_input_pid fallbackBridge = some pid ∧
      (fallbackBridge.path_from_pid pid 4096).status > 0 ∧
      (fallbackBridge.path_from_pid pid 4096).content = some s ∧
      rustTrim s ≠ "" ∧ "/another/directory" = rustTrim s :=
  ⟨claim4_path_resolution.2.1 pathFailBridge 42 (by decide) (Or.inl (by decide)),
   claim4_path_resolution.2.2 fallbackBridge "/another/directory" "/another/directory"
     (by decide)⟩

/-- Claim C5: the concrete scenarios — the iTerm path extracts `iTerm`,
the SecurityAgent bundle path extracts `SecurityAgent`,
`/another/directory` yields no match, and the resolver then falls back
to `/another/directory` as the display name. -/
theorem claim5_concrete_scenarios :
    get_app_name_from_path "/Applications/iTerm.app/Contents/MacOS/iTerm2" = some "iTerm" ∧
    get_app_name_from_path
        "/System/Library/Frameworks/Security.framework/Versions/A/MachServices/SecurityAgent.bundle/Contents/MacOS/SecurityAgent"
      = some "SecurityAgent" ∧
    get_app_name_from_path "/another/directory" = none ∧
    get_secure_input_application fallbackBridge =
      some ("/another/directory", "/another/directory") :=
  ⟨by decide, by decide, by decide, by decide⟩

/-- Claim C6: on this platform variant the window-title query is defined
as the window-class query, so the two functions agree for every bridge
behaviour. -/
theorem claim6_title_eq_class (b : Bridge) :
    get_current_window_title b = get_current_window_class b := rfl

/-- Claim C7: the `SystemManager` queries never propagate a failure: for
every bridge outcome with non-positive status (including `0`) or an
undecodable buffer, `get_current_window_class` and
`get_current_window_executable` return `None`. -/
theorem claim7_degrade_to_none (b : Bridge) :
    ((b.active_app_identifier 250).status ≤ 0 ∨ (b.active_app_identifier 250).content = none →
      get_current_window_class b = none) ∧
    ((b.active_app_bundle 250).status ≤ 0 ∨ (b.active_app_bundle 250).content = none →
      get_current_window_executable b = none) := by
  constructor
  · intro h
    unfold get_current_window_class
    dsimp only
    rcases h with hst | hcon
    · rw [if_neg (by omega : ¬ (b.active_app_identifier 250).status > 0)]
    · by_cases hst : (b.active_app_identifier 250).status > 0
      · rw [if_pos hst, hcon]
      · rw [if_neg hst]
  · intro h
    unfold get_current_window_executable
    dsimp only
    rcases h with hst | hcon
    · rw [if_neg (by omega : ¬ (b.active_app_bundle 250).status > 0)]
    · by_cases hst : (b.active_app_bundle 250).status > 0
      · rw [if_pos hst, hcon]
      · rw [if_neg hst]

/-- Claim C7 witness: the status-`0` bridge makes both queries return
`None`. -/
theorem claim7_witness :
    get_current_window_class zeroBridge = none ∧
    get_current_window_executable zeroBridge = none :=
  ⟨(claim7_degrade_to_none zeroBridge).1 (Or.inl (by decide)),
   (claim7_degrade_to_none zeroBridge).2 (Or.inl (by decide))⟩

/-- Claim C8 counterexample: a bridge that reports success while leaving
the caller's sentinel `-1` in the PID slot makes `get_secure_input_pid`
return `Some (-1)`, and the resolver passes `-1` on to the PID-to-path
bridge call (this bridge only answers the path query at `-1`, and a
holder is nevertheless produced). -/
theorem claim8_counterexample :
    get_secure_input_pid sentinelBridge = some (-1) ∧
    get_secure_input_application sentinelBridge = some ("/evil", "/evil") :=
  ⟨by decide, by decide⟩

/-- Claim C8 (amended): the sentinel `-1` initial slot value is never
exposed when the bridge reports failure — a non-positive status yields
`None` — but on a positive status the slot value is returned
unfiltered, so a misbehaving bridge can make the code treat the
sentinel `-1` as a valid PID and pass it to the path query. -/
theorem claim8_sentinel_not_filtered (b : Bridge) :
    (b.secure_input_process.1 ≤ 0 → get_secure_input_pid b = none) ∧
    (b.secure_input_process.1 > 0 →
      get_secure_input_pid b = some b.secure_input_process.2) := by
  constructor
  · intro h
    rw [get_secure_input_pid_eq, if_neg (by omega : ¬ b.secure_input_process.1 > 0)]
  · intro h
    rw [get_secure_input_pid_eq, if_pos h]

/-- Claim C8 witness: both branches of the amended claim at concrete
bridges. -/
theorem claim8_witness :
    get_secure_input_pid zeroBridge = none ∧
    get_secure_input_pid sentinelBridge = some (-1) :=
  ⟨(claim8_sentinel_not_filtered zeroBridge).1 (by decide),
   (claim8_sentinel_not_filtered sentinelBridge).2 (by decide)⟩

/-- Claim C9: every query is a deterministic pure function of the bridge's
responses: two bridges answering every call identically are
indistinguishable through every query, so repeated calls under an
unchanged bridge yield identical results — no caching or hidden state
exists. -/
theorem claim9_pure_function (b b' : Bridge)
    (h1 : b.active_app_identifier = b'.active_app_identifier)
    (h2 : b.active_app_bundle = b'.active_app_bundle)
    (h3 : b.secure_input_process = b'.secure_input_process)
    (h4 : b.path_from_pid = b'.path_from_pid) :
    get_current_window_class b = get_current_window_class b' ∧
    get_current_window_executable b = get_current_window_executable b' ∧
    get_current_window_title b = get_current_window_title b' ∧
    get_secure_input_pid b = get_secure_input_pid b' ∧
    get_secure_input_application b = get_secure_input_application b' := by
  have hb : b = b' := by
    cases b
    cases b'
    simp only [Bridge.mk.injEq]
    exact ⟨h1, h2, h3, h4⟩
  subst hb
  exact ⟨rfl, rfl, rfl, rfl, rfl⟩

/-- Claim C9 witness: the claim applied to two identical copies of a
concrete bridge. -/
theorem claim9_witness :
    get_current_window_class zeroBridge = get_current_window_class zeroBridge ∧
    get_current_window_executable zeroBridge = get_current_window_executable zeroBridge ∧
    get_current_window_title zeroBridge = get_current_window_title zeroBridge ∧
    get_secure_input_pid zeroBridge = get_secure_input_pid zeroBridge ∧
    get_secure_input_application zeroBridge = get_secure_input_application zeroBridge :=
  claim9_pure_function zeroBridge zeroBridge rfl rfl rfl rfl

/-- Claim C10: whenever the resolver returns a pair `(name, path)`, the
path is non-empty and equal to its own trim, and the name is either the
path itself (the fallback) or a non-empty separator-free segment
extracted from the path by `get_app_name_from_path`. -/
theorem claim10_holder_invariant (b : Bridge) (name p : String)
    (h : get_secure_input_application b = some (name, p)) :
    p ≠ "" ∧ rustTrim p = p ∧
    (name = p ∨ (name ≠ "" ∧ (∀ c ∈ name.data, c ≠ '/') ∧
      get_app_name_from_path p = some name)) := by
  obtain ⟨pid, s, hpid, hst, hcon, htr, hps, hname⟩ := secure_input_application_parts h
  subst hps
  refine ⟨htr, rustTrim_idem s, ?_⟩
  cases hn : get_app_name_from_path (rustTrim s) with
  | none =>
    left
    rw [hname, hn]
  | some n =>
    right
    rw [hname, hn]
    dsimp only
    obtain ⟨X, c, sfx, pre, post, hXne, hXsl, _, _, _, hnX⟩ := get_app_name_some_parts hn
    subst hnX
    refine ⟨?_, ?_, rfl⟩
    · intro h0
      apply hXne
      have h3 := congrArg String.data h0
      exact h3
    · intro cc hcc
      exact hXsl cc hcc

/-- Claim C10 witness: the fallback pair for `/another/directory`
satisfies the invariant. -/
theorem claim10_witness :
    ("/another/directory" : String) ≠ "" ∧
    rustTrim "/another/directory" = "/another/directory" ∧
    (("/another/directory" : String) = "/another/directory" ∨
      (("/another/directory" : String) ≠ "" ∧
        (∀ c ∈ ("/another/directory" : String).data, c ≠ '/') ∧
        get_app_name_from_path "/another/directory" = some "/another/directory")) :=
  claim10_holder_invariant fallbackBridge "/another/directory" "/another/directory" (by decide)

end Espanso
